import Mathlib

/-!
# Verification of the OTP Session Manager

A shallow embedding of the OTP core of the repository: the `OTPService`
class (session store, generate/verify/resend/cleanup/status/statistics)
and the `OTPGenerator` utility, translated from `src/otpService.js` and
`src/utils/otpGenerator.js`.

Modelling choices:
* JavaScript `Map` objects (`otpStore`, `attemptStore`) become association
  lists with `get` / `has` / `set` / `delete` operations (`getK`, `hasK`,
  `setK`, `delK`).  A real `Map` has unique keys; where a proof needs
  this, the `keysNodup` hypothesis records it.
* Timestamps become integers (`Date` stores whole milliseconds; the
  source only ever compares them and adds the expiry window); delivery
  costs become rationals (`0.001` USD etc.).  The clock is an
  external collaborator, so every operation takes `now` explicitly.
* The random session id and the random OTP drawn from the secure random
  source are oracle inputs to `generateAndSend`; the numeric draw of
  `crypto.randomInt` is an oracle input to `OTPGenerator.generate`.
* Channel delivery is an external capability: the outcome of the i-th
  `sendViaChannel` call of an operation is supplied by an oracle
  `sendOutcome : Nat → Except String SendOk` (a thrown error surfaces as
  `.error`); the arguments the manager passes to the capability are
  recorded as a list of `SendCall`s.
-/

namespace OTP

/-- Timestamps in whole milliseconds, as stored by a JS `Date`. -/
abbrev Time := ℤ

/-- One stored OTP session (value of `this.otpStore`): the spread of
`OTPGenerator.generateWithExpiry` output with identifier, channels,
creation time and the verification flag, as built in `generateAndSend`. -/
structure Session where
  otp        : String
  expiresAt  : Time
  identifier : String
  channels   : List String
  createdAt  : Time
  verified   : Bool
  verifiedAt : Option Time
deriving Repr, DecidableEq

/-- `Map.get`: the value at the first entry with the given key. -/
def getK : List (String × α) → String → Option α
  | [], _ => none
  | p :: rest, k => if p.1 = k then some p.2 else getK rest k

/-- `Map.has`. -/
def hasK : List (String × α) → String → Bool
  | [], _ => false
  | p :: rest, k => p.1 = k || hasK rest k

/-- `Map.set`: replace the entry with the given key, or append a new one. -/
def setK : List (String × α) → String → α → List (String × α)
  | [], k, v => [(k, v)]
  | p :: rest, k, v => if p.1 = k then (k, v) :: rest else p :: setK rest k v

/-- `Map.delete`. -/
def delK : List (String × α) → String → List (String × α)
  | [], _ => []
  | p :: rest, k => if p.1 = k then delK rest k else p :: delK rest k

/-- A JS `Map` never holds two entries with the same key. -/
def keysNodup (m : List (String × α)) : Prop := (m.map Prod.fst).Nodup

instance (m : List (String × α)) : Decidable (keysNodup m) := by
  unfold keysNodup; infer_instance

/-- The mutable state of an `OTPService` instance: `this.otpStore` and
`this.attemptStore`. -/
structure OTPState where
  otpStore     : List (String × Session)
  attemptStore : List (String × Nat)
deriving Repr, DecidableEq

/-- `this.config` of `OTPService`. -/
structure Config where
  otpLength     : Nat
  expiryMinutes : Time
  maxAttempts   : Nat
deriving Repr, DecidableEq

/-- The attempt counter the service reads for a session:
`this.attemptStore.get(sessionId) || 0`. -/
def attemptsOf (st : OTPState) (sessionId : String) : Nat :=
  (getK st.attemptStore sessionId).getD 0

/-- Result of `OTPService.verify`, by returned `code` field
(`success: true` carries `verifiedAt`, `attemptsUsed`, `identifier`;
`INVALID_CODE` carries `attemptsRemaining`). -/
inductive VerifyResult where
  | invalidSession
  | alreadyUsed
  | maxAttemptsExceeded
  | expired
  | success (verifiedAt : Time) (attemptsUsed : Nat) (identifier : String)
  | invalidCode (attemptsRemaining : Int)
deriving Repr, DecidableEq

/-- `OTPService.verify(sessionId, inputOtp)`, translated line by line:
missing session, already-verified, max-attempts (deleting the session),
expiry (deleting the session), then the attempt increment followed by the
code comparison. -/
def verify (cfg : Config) (st : OTPState) (now : Time)
    (sessionId inputOtp : String) : VerifyResult × OTPState :=
  match getK st.otpStore sessionId with
  | none => (.invalidSession, st)
  | some otpData =>
      let attempts := (getK st.attemptStore sessionId).getD 0
      if otpData.verified then
        (.alreadyUsed, st)
      else if cfg.maxAttempts ≤ attempts then
        (.maxAttemptsExceeded,
          { otpStore := delK st.otpStore sessionId
            attemptStore := delK st.attemptStore sessionId })
      else if otpData.expiresAt < now then
        (.expired,
          { otpStore := delK st.otpStore sessionId
            attemptStore := delK st.attemptStore sessionId })
      else
        let newAttempts := attempts + 1
        let st1 : OTPState :=
          { st with attemptStore := setK st.attemptStore sessionId newAttempts }
        if inputOtp = otpData.otp then
          let updated := { otpData with verified := true, verifiedAt := some now }
          (.success now newAttempts otpData.identifier,
            { st1 with otpStore := setK st1.otpStore sessionId updated })
        else
          (.invalidCode ((cfg.maxAttempts : Int) - (newAttempts : Int)), st1)

/-- Successful return value of a channel capability's `send`: the fields
the manager reads (`success`, `cost`) plus the channel's self-reported
name (`channel: this.name`). -/
structure SendOk where
  success : Bool
  channel : String
  cost    : ℚ
deriving Repr, DecidableEq

/-- One entry of the `channels` array in the result of `generateAndSend`
or `resend`: either the channel's own result or the catch-clause record
`{success: false, channel: channelName, error}` (which has no `cost`). -/
structure ChanResult where
  success : Bool
  channel : String
  cost    : Option ℚ
  error   : Option String
deriving Repr, DecidableEq

/-- The `try { sendViaChannel ... } catch { ... }` around one delivery:
a thrown error becomes the per-channel failure record. -/
def attemptChannel (outcome : Except String SendOk) (channelName : String) : ChanResult :=
  match outcome with
  | .ok r => { success := r.success, channel := r.channel, cost := some r.cost, error := none }
  | .error e => { success := false, channel := channelName, cost := none, error := some e }

/-- Arguments of one `sendViaChannel` call: which channel was asked to
deliver which code to which identifier. -/
structure SendCall where
  channel    : String
  identifier : String
  code       : String
deriving Repr, DecidableEq

/-- The delivery loop shared by `generateAndSend` and `resend`: one
guarded `sendViaChannel` call per requested channel, in request order;
`sendOutcome i` is the external outcome of the i-th call. -/
def sendLoop (sendOutcome : Nat → Except String SendOk)
    (channelArray : List String) : List ChanResult :=
  channelArray.enum.map fun p => attemptChannel (sendOutcome p.1) p.2

/-- Return value of `generateAndSend`. -/
structure GenResult where
  success   : Bool
  sessionId : String
  otp       : String
  expiresAt : Time
  channels  : List ChanResult
  totalCost : ℚ
deriving Repr, DecidableEq

/-- Result, post-state and capability calls of one `generateAndSend`. -/
structure GenOutput where
  result : GenResult
  state  : OTPState
  calls  : List SendCall
deriving Repr, DecidableEq

/-- `OTPService.generateAndSend(identifier, channels, options)`.  The
fresh session id and the generated code (both from the random source)
are oracle inputs; `channels` is already in array form (the source wraps
a single name into an array). -/
def generateAndSend (cfg : Config) (st : OTPState) (now : Time)
    (sessionId otp identifier : String) (channels : List String)
    (sendOutcome : Nat → Except String SendOk) : GenOutput :=
  let expiresAt := now + cfg.expiryMinutes * 60 * 1000
  let sess : Session :=
    { otp := otp, expiresAt := expiresAt, identifier := identifier,
      channels := channels, createdAt := now, verified := false, verifiedAt := none }
  let st1 : OTPState :=
    { otpStore := setK st.otpStore sessionId sess
      attemptStore := setK st.attemptStore sessionId 0 }
  let sendResults := sendLoop sendOutcome channels
  { result :=
      { success := sendResults.any (fun r => r.success)
        sessionId := sessionId
        otp := otp
        expiresAt := expiresAt
        channels := sendResults
        totalCost := (sendResults.map (fun r => r.cost.getD 0)).sum }
    state := st1
    calls := channels.map fun c => { channel := c, identifier := identifier, code := otp } }

/-- The `status` tag computed by `getSessionStatus`. -/
inductive SessionTag where
  | pending
  | verified
  | expired
  | maxAttemptsExceeded
deriving Repr, DecidableEq

/-- The record returned by `getSessionStatus` when the session exists. -/
structure StatusRecord where
  sessionId         : String
  identifier        : String
  channels          : List String
  createdAt         : Time
  expiresAt         : Time
  verified          : Bool
  verifiedAt        : Option Time
  attempts          : Nat
  maxAttempts       : Nat
  attemptsRemaining : Nat
  isExpired         : Bool
  status            : SessionTag
deriving Repr, DecidableEq

/-- `OTPService.getSessionStatus(sessionId)`: a read-only projection;
`none` is the `{exists: false}` answer. -/
def getSessionStatus (cfg : Config) (st : OTPState) (now : Time)
    (sessionId : String) : Option StatusRecord :=
  match getK st.otpStore sessionId with
  | none => none
  | some otpData =>
      let attempts := (getK st.attemptStore sessionId).getD 0
      let isExpired := decide (otpData.expiresAt < now)
      some
        { sessionId := sessionId
          identifier := otpData.identifier
          channels := otpData.channels
          createdAt := otpData.createdAt
          expiresAt := otpData.expiresAt
          verified := otpData.verified
          verifiedAt := otpData.verifiedAt
          attempts := attempts
          maxAttempts := cfg.maxAttempts
          attemptsRemaining := cfg.maxAttempts - attempts
          isExpired := isExpired
          status :=
            if otpData.verified then .verified
            else if isExpired then .expired
            else if cfg.maxAttempts ≤ attempts then .maxAttemptsExceeded
            else .pending }

/-- The three errors `resend` can throw. -/
inductive ResendError where
  | sessionNotFound
  | alreadyVerified
  | sessionExpired
deriving Repr, DecidableEq

/-- Successful return value of `resend`. -/
structure ResendResult where
  success   : Bool
  sessionId : String
  channels  : List ChanResult
  totalCost : ℚ
deriving Repr, DecidableEq

/-- Result, post-state and capability calls of one `resend`. -/
structure ResendOutput where
  result : Except ResendError ResendResult
  state  : OTPState
  calls  : List SendCall
deriving Repr

/-- `OTPService.resend(sessionId, channels)`: guards via
`getSessionStatus`, then redelivers `otpData.otp` via the explicitly
given channels or the session's original channel set.  `channels = none`
is the `null` default.  (The inner `none` branch mirrors the second
store lookup of the source; the guards make it unreachable.) -/
def resend (cfg : Config) (st : OTPState) (now : Time) (sessionId : String)
    (channels : Option (List String))
    (sendOutcome : Nat → Except String SendOk) : ResendOutput :=
  match getSessionStatus cfg st now sessionId with
  | none => { result := .error .sessionNotFound, state := st, calls := [] }
  | some sessionStatus =>
      if sessionStatus.verified then
        { result := .error .alreadyVerified, state := st, calls := [] }
      else if sessionStatus.isExpired then
        { result := .error .sessionExpired, state := st, calls := [] }
      else
        match getK st.otpStore sessionId with
        | none => { result := .error .sessionNotFound, state := st, calls := [] }
        | some otpData =>
            let channelArray := channels.getD otpData.channels
            let sendResults := sendLoop sendOutcome channelArray
            { result := .ok
                { success := sendResults.any (fun r => r.success)
                  sessionId := sessionId
                  channels := sendResults
                  totalCost := (sendResults.map (fun r => r.cost.getD 0)).sum }
              state := st
              calls := channelArray.map fun c =>
                { channel := c, identifier := otpData.identifier, code := otpData.otp } }

/-- `OTPService.cleanupExpiredSessions()`: deletes every store entry with
`now > expiresAt` (and its attempt counter) and returns how many. -/
def cleanupExpiredSessions (st : OTPState) (now : Time) : Nat × OTPState :=
  (st.otpStore.countP (fun p => decide (p.2.expiresAt < now)),
   { otpStore := st.otpStore.filter (fun p => !decide (p.2.expiresAt < now))
     attemptStore := st.attemptStore.filter (fun p =>
        match getK st.otpStore p.1 with
        | some s => !decide (s.expiresAt < now)
        | none => true) })

/-- Return value of `getStats` (the session classification part). -/
structure Stats where
  totalSessions    : Nat
  activeSessions   : Nat
  expiredSessions  : Nat
  verifiedSessions : Nat
deriving Repr, DecidableEq

/-- `OTPService.getStats()`: classifies every stored session as
verified, else expired, else active. -/
def getStats (st : OTPState) (now : Time) : Stats :=
  { totalSessions := st.otpStore.length
    verifiedSessions := st.otpStore.countP (fun p => p.2.verified)
    expiredSessions :=
      st.otpStore.countP (fun p => !p.2.verified && decide (p.2.expiresAt < now))
    activeSessions :=
      st.otpStore.countP (fun p => !p.2.verified && !decide (p.2.expiresAt < now)) }

/-- `min = Math.pow(10, length - 1)` in `OTPGenerator.generate`. -/
def otpMin (len : Nat) : Nat := 10 ^ (len - 1)

/-- `max = Math.pow(10, length) - 1` in `OTPGenerator.generate`. -/
def otpMax (len : Nat) : Nat := 10 ^ len - 1

/-- Numeric mode of `OTPGenerator.generate`:
`crypto.randomInt(min, max + 1).toString()`.  The call to the
cryptographically secure source is the external uniform draw `r` from
`[otpMin len, otpMax len]`, supplied as an oracle input; the generator
stringifies it. -/
def OTPGenerator.generate (len : Nat) (r : Nat) : String := Nat.repr r

/-- One call of the service's public interface, with its oracle inputs. -/
inductive Op where
  | generateAndSendOp (now : Time) (sessionId otp identifier : String)
      (channels : List String) (sendOutcome : Nat → Except String SendOk)
  | verifyOp (now : Time) (sessionId inputOtp : String)
  | resendOp (now : Time) (sessionId : String) (channels : Option (List String))
      (sendOutcome : Nat → Except String SendOk)
  | cleanupOp (now : Time)
  | getSessionStatusOp (now : Time) (sessionId : String)
  | getStatsOp (now : Time)

/-- The state transition of one interface call (`getSessionStatus` and
`getStats` never write the stores). -/
def applyOp (cfg : Config) (st : OTPState) : Op → OTPState
  | .generateAndSendOp now sid otp idf chans so =>
      (generateAndSend cfg st now sid otp idf chans so).state
  | .verifyOp now sid code => (verify cfg st now sid code).2
  | .resendOp now sid chans so => (resend cfg st now sid chans so).state
  | .cleanupOp now => (cleanupExpiredSessions st now).2
  | .getSessionStatusOp _ _ => st
  | .getStatsOp _ => st

/-- Run a call sequence. -/
def runOps (cfg : Config) (st : OTPState) (ops : List Op) : OTPState :=
  ops.foldl (applyOp cfg) st

/-- States reachable from a freshly constructed service (empty stores). -/
inductive Reachable (cfg : Config) : OTPState → Prop where
  | init : Reachable cfg ⟨[], []⟩
  | step (st : OTPState) (op : Op) :
      Reachable cfg st → Reachable cfg (applyOp cfg st op)

/-- Does this call create (or overwrite) the session with the given id?
Session-id collisions are the one case the source does not handle. -/
def opCreates (op : Op) (sessionId : String) : Bool :=
  match op with
  | .generateAndSendOp _ sid _ _ _ _ => sid = sessionId
  | _ => false

/-- Deleting a session and its attempt counter, as the spec's "session is
deleted from the store". -/
def deleteSession (st : OTPState) (sessionId : String) : OTPState :=
  { otpStore := delK st.otpStore sessionId
    attemptStore := delK st.attemptStore sessionId }

/-- Claim C1's description of `verify`, written from the spec's ordered,
short-circuiting checks (§4.3): unknown session, already verified,
attempts exhausted (delete), expired (delete), then increment the
attempt count and compare, with `attemptsRemaining` computed from the
incremented count. -/
def verifySpec (cfg : Config) (st : OTPState) (now : Time)
    (sessionId candidateCode : String) : VerifyResult × OTPState :=
  match getK st.otpStore sessionId with
  | none => (.invalidSession, st)
  | some sess =>
      if sess.verified then (.alreadyUsed, st)
      else if attemptsOf st sessionId ≥ cfg.maxAttempts then
        (.maxAttemptsExceeded, deleteSession st sessionId)
      else if now > sess.expiresAt then
        (.expired, deleteSession st sessionId)
      else
        let incremented := attemptsOf st sessionId + 1
        let st' : OTPState :=
          { st with attemptStore := setK st.attemptStore sessionId incremented }
        if candidateCode = sess.otp then
          let marked := { sess with verified := true, verifiedAt := some now }
          (.success now incremented sess.identifier,
            { st' with otpStore := setK st'.otpStore sessionId marked })
        else
          (.invalidCode ((cfg.maxAttempts : Int) - (incremented : Int)), st')

/-- Claim C6 / spec §4.2's description of `resend`: `SessionNotFound` for
an unknown id, `AlreadyVerified` for a verified session, `SessionExpired`
past `expiresAt`; otherwise the existing code is redelivered to the
explicitly given channels or the session's original channel set; the
store — in particular every attempt counter — is left unchanged. -/
def resendSpec (st : OTPState) (now : Time) (sessionId : String)
    (channels : Option (List String))
    (sendOutcome : Nat → Except String SendOk) : ResendOutput :=
  match getK st.otpStore sessionId with
  | none => { result := .error .sessionNotFound, state := st, calls := [] }
  | some sess =>
      if sess.verified then
        { result := .error .alreadyVerified, state := st, calls := [] }
      else if now > sess.expiresAt then
        { result := .error .sessionExpired, state := st, calls := [] }
      else
        let channelArray := channels.getD sess.channels
        let results := sendLoop sendOutcome channelArray
        { result := .ok
            { success := results.any (fun r => r.success)
              sessionId := sessionId
              channels := results
              totalCost := (results.map (fun r => r.cost.getD 0)).sum }
          state := st
          calls := channelArray.map fun c =>
            { channel := c, identifier := sess.identifier, code := sess.otp } }

/-! ## Lemmas about the `Map` embedding -/

theorem getK_setK_self (m : List (String × α)) (k : String) (v : α) :
    getK (setK m k v) k = some v := by
  induction m with
  | nil => simp [setK, getK]
  | cons p rest ih =>
      by_cases h : p.1 = k
      · simp [setK, h, getK]
      · simp [setK, h, getK, ih]

theorem getK_setK_ne (m : List (String × α)) (k k' : String) (v : α)
    (h : k' ≠ k) : getK (setK m k v) k' = getK m k' := by
  have hkk : ¬ k = k' := fun hk => h hk.symm
  induction m with
  | nil => simp [setK, getK, hkk]
  | cons p rest ih =>
      by_cases hp : p.1 = k
      · subst hp
        simp [setK, getK, hkk]
      · by_cases hp' : p.1 = k' <;> simp [setK, getK, hkk, h, hp, hp', ih]

theorem getK_delK_self (m : List (String × α)) (k : String) :
    getK (delK m k) k = none := by
  induction m with
  | nil => simp [delK, getK]
  | cons p rest ih =>
      by_cases h : p.1 = k
      · simp [delK, h, ih]
      · simp [delK, getK, h, ih]

theorem getK_delK_ne (m : List (String × α)) (k k' : String)
    (h : k' ≠ k) : getK (delK m k) k' = getK m k' := by
  have hkk : ¬ k = k' := fun hk => h hk.symm
  induction m with
  | nil => simp [delK]
  | cons p rest ih =>
      by_cases hp : p.1 = k
      · subst hp
        simp [delK, getK, hkk, ih]
      · by_cases hp' : p.1 = k' <;> simp [delK, getK, hkk, h, hp, hp', ih]

theorem getK_mem (m : List (String × α)) (k : String) (v : α)
    (h : getK m k = some v) : (k, v) ∈ m := by
  induction m with
  | nil => simp [getK] at h
  | cons p rest ih =>
      by_cases hp : p.1 = k
      · simp only [getK, if_pos hp, Option.some.injEq] at h
        have hpv : p = (k, v) := Prod.ext hp h
        rw [← hpv]
        exact List.mem_cons_self _ _
      · simp only [getK, if_neg hp] at h
        exact List.mem_cons_of_mem _ (ih h)

theorem mem_setK (m : List (String × α)) (k : String) (v : α) (q : String × α)
    (h : q ∈ setK m k v) : q ∈ m ∨ q = (k, v) := by
  induction m with
  | nil => simp [setK] at h; right; exact h
  | cons p rest ih =>
      by_cases hp : p.1 = k
      · simp [setK, hp] at h
        rcases h with h | h
        · right; exact h
        · left; exact List.mem_cons_of_mem _ h
      · simp [setK, hp] at h
        rcases h with h | h
        · left; simp [h]
        · rcases ih h with h' | h'
          · left; exact List.mem_cons_of_mem _ h'
          · right; exact h'

theorem delK_sublist (m : List (String × α)) (k : String) :
    (delK m k).Sublist m := by
  induction m with
  | nil => simp [delK]
  | cons p rest ih =>
      by_cases hp : p.1 = k
      · simp only [delK, if_pos hp]
        exact ih.cons p
      · simp only [delK, if_neg hp]
        exact ih.cons₂ p

theorem getK_none_of_not_mem_keys (m : List (String × α)) (k : String)
    (h : k ∉ m.map Prod.fst) : getK m k = none := by
  induction m with
  | nil => rfl
  | cons p rest ih =>
      simp only [List.map_cons, List.mem_cons] at h
      push_neg at h
      have hp : ¬ p.1 = k := fun hk => h.1 hk.symm
      simp [getK, hp, ih h.2]

/-- Filtering by a predicate on the key alone commutes with lookup,
whether or not the keys are duplicate-free. -/
theorem getK_filter_key (m : List (String × α)) (k : String) (f : String → Bool) :
    getK (m.filter fun q => f q.1) k = if f k then getK m k else none := by
  induction m with
  | nil => simp [getK]
  | cons p rest ih =>
      by_cases hp : p.1 = k
      · subst hp
        by_cases hf : f p.1 <;> simp [List.filter_cons, hf, getK, ih]
      · by_cases hf : f p.1 <;> simp [List.filter_cons, hf, getK, hp, ih]

/-- Filtering by a predicate on the value commutes with lookup on a
store with duplicate-free keys. -/
theorem getK_filter_val (m : List (String × α)) (k : String) (f : α → Bool)
    (hm : keysNodup m) :
    getK (m.filter fun q => f q.2) k =
      match getK m k with
      | some v => if f v then some v else none
      | none => none := by
  induction m with
  | nil => simp [getK]
  | cons p rest ih =>
      simp only [keysNodup, List.map_cons, List.nodup_cons] at hm
      by_cases hp : p.1 = k
      · subst hp
        have hrest : getK ((rest.filter fun q => f q.2)) p.1 = none := by
          apply getK_none_of_not_mem_keys
          intro hmem
          exact hm.1 (List.map_subset Prod.fst (List.filter_sublist rest).subset hmem)
        by_cases hf : f p.2 <;> simp [List.filter_cons, hf, getK, hrest]
      · by_cases hf : f p.2 <;>
          simp [List.filter_cons, hf, getK, hp, ih hm.2]

theorem keys_setK_subset (m : List (String × α)) (k : String) (v : α)
    (x : String) (h : x ∈ (setK m k v).map Prod.fst) :
    x ∈ m.map Prod.fst ∨ x = k := by
  induction m with
  | nil =>
      simp only [setK, List.map_cons, List.map_nil, List.mem_singleton] at h
      right; exact h
  | cons p rest ih =>
      by_cases hp : p.1 = k
      · rw [show setK (p :: rest) k v = (k, v) :: rest from by simp [setK, hp]] at h
        simp only [List.map_cons, List.mem_cons] at h
        rcases h with h | h
        · right; exact h
        · left
          simp only [List.map_cons, List.mem_cons]
          right; exact h
      · rw [show setK (p :: rest) k v = p :: setK rest k v from by simp [setK, hp]] at h
        simp only [List.map_cons, List.mem_cons] at h
        rcases h with h | h
        · left
          simp only [List.map_cons, List.mem_cons]
          left; exact h
        · rcases ih h with h' | h'
          · left
            simp only [List.map_cons, List.mem_cons]
            right; exact h'
          · right; exact h'

theorem keysNodup_setK (m : List (String × α)) (k : String) (v : α)
    (hm : keysNodup m) : keysNodup (setK m k v) := by
  induction m with
  | nil => simp [setK, keysNodup]
  | cons p rest ih =>
      simp only [keysNodup, List.map_cons, List.nodup_cons] at hm
      by_cases hp : p.1 = k
      · subst hp
        rw [show setK (p :: rest) p.1 v = (p.1, v) :: rest from by simp [setK]]
        simp only [keysNodup, List.map_cons, List.nodup_cons]
        exact hm
      · rw [show setK (p :: rest) k v = p :: setK rest k v from by simp [setK, hp]]
        simp only [keysNodup, List.map_cons, List.nodup_cons]
        refine ⟨fun hmem => ?_, ih hm.2⟩
        rcases keys_setK_subset rest k v p.1 hmem with h' | h'
        · exact hm.1 h'
        · exact hp h'

theorem keysNodup_delK (m : List (String × α)) (k : String)
    (hm : keysNodup m) : keysNodup (delK m k) :=
  ((delK_sublist m k).map Prod.fst).nodup hm

theorem keysNodup_filter (m : List (String × α)) (f : String × α → Bool)
    (hm : keysNodup m) : keysNodup (m.filter f) :=
  (((List.filter_sublist m)).map Prod.fst).nodup hm

/-- Specialisation of `getK_filter_val` to the expiry filter used by
`cleanupExpiredSessions`. -/
theorem getK_filter_expiry (m : List (String × Session)) (k : String)
    (now : Time) (hm : keysNodup m) :
    getK (m.filter fun p => !decide (p.2.expiresAt < now)) k =
      match getK m k with
      | some v => if v.expiresAt < now then none else some v
      | none => none := by
  have h := getK_filter_val m k (fun v => !decide (v.expiresAt < now)) hm
  simp only at h
  rw [h]
  cases getK m k with
  | none => rfl
  | some v => by_cases hv : v.expiresAt < now <;> simp [hv]

/-! ## C1: the verification state machine -/

/-- **C1.**  For every store state and every call
`verify(sessionId, candidateCode)`, the checks run in order, each
short-circuiting: unknown session → `InvalidSession`; already verified →
`AlreadyUsed`; `attempts >= maxAttempts` → `MaxAttemptsExceeded` with the
session deleted; past `expiresAt` → `Expired` with the session deleted;
otherwise the attempt count is incremented and the candidate compared —
success carries `attemptsUsed`, a mismatch carries
`attemptsRemaining = maxAttempts - attempts` computed with the
incremented count.  `verifySpec` is that description, transcribed from
the claim; the theorem states `verify` realises it on every input. -/
theorem verify_meets_spec (cfg : Config) (st : OTPState) (now : Time)
    (sessionId candidateCode : String) :
    verify cfg st now sessionId candidateCode =
      verifySpec cfg st now sessionId candidateCode := by
  unfold verify verifySpec attemptsOf deleteSession
  cases getK st.otpStore sessionId with
  | none => rfl
  | some sess =>
      by_cases hv : sess.verified <;>
        by_cases hm : cfg.maxAttempts ≤ (getK st.attemptStore sessionId).getD 0 <;>
        by_cases he : sess.expiresAt < now <;>
        by_cases hc : candidateCode = sess.otp <;>
        simp [hv, hm, he, hc, ge_iff_le, gt_iff_lt]

/-! ## C6: resend error taxonomy and attempt preservation -/

/-- **C6.**  `resend` fails with `SessionNotFound` on an unknown id,
`AlreadyVerified` on a verified session, `SessionExpired` past
`expiresAt` (checked in that order), and in every case — success or
failure — leaves the stores, in particular every attempt counter,
unchanged.  `resendSpec` transcribes that description; the theorem
states `resend` realises it on every input. -/
theorem resend_meets_spec (cfg : Config) (st : OTPState) (now : Time)
    (sessionId : String) (channels : Option (List String))
    (sendOutcome : Nat → Except String SendOk) :
    resend cfg st now sessionId channels sendOutcome =
      resendSpec st now sessionId channels sendOutcome := by
  unfold resend resendSpec getSessionStatus
  cases hg : getK st.otpStore sessionId with
  | none => rfl
  | some sess =>
      by_cases hv : sess.verified <;> by_cases he : sess.expiresAt < now <;>
        simp [hv, he, hg, gt_iff_lt]

/-! ## C2: the cleanup sweep -/

/-- **C2, counterexample.**  A session that is both verified and past
expiry is removed by `cleanupExpiredSessions` (and counted), refuting
the claim that a verified session is never removed: the source filters
on `now > expiresAt` alone and never consults `verified`. -/
theorem cleanup_removes_verified_session :
    let s : Session :=
      { otp := "123456", expiresAt := 100, identifier := "u@x.com",
        channels := ["sms"], createdAt := 0, verified := true, verifiedAt := some 50 }
    let st : OTPState := { otpStore := [("sid1", s)], attemptStore := [("sid1", 1)] }
    s.verified = true ∧ s.expiresAt < 200 ∧
      (cleanupExpiredSessions st 200).1 = 1 ∧
      getK (cleanupExpiredSessions st 200).2.otpStore "sid1" = none := by
  exact ⟨rfl, by decide, by decide, by decide⟩

/-- **C2, amended.**  `cleanupExpiredSessions` removes exactly the
sessions whose `expiresAt` is past the current time — whether verified
or not — and never a still-unexpired one; the returned count is exactly
the number of sessions removed. -/
theorem cleanup_spec (st : OTPState) (now : Time) (hwf : keysNodup st.otpStore) :
    ((cleanupExpiredSessions st now).1 + (cleanupExpiredSessions st now).2.otpStore.length
        = st.otpStore.length) ∧
    (∀ sessionId s, getK st.otpStore sessionId = some s →
        getK (cleanupExpiredSessions st now).2.otpStore sessionId =
          if s.expiresAt < now then none else some s) ∧
    (∀ sessionId, getK st.otpStore sessionId = none →
        getK (cleanupExpiredSessions st now).2.otpStore sessionId = none) := by
  refine ⟨?_, ?_, ?_⟩
  · simp only [cleanupExpiredSessions]
    rw [List.countP_eq_length_filter]
    have h := List.length_eq_length_filter_add
      (l := st.otpStore) (fun p => decide (p.2.expiresAt < now))
    simp only at h
    omega
  · intro sessionId s hs
    simp only [cleanupExpiredSessions]
    rw [getK_filter_expiry st.otpStore sessionId now hwf, hs]
  · intro sessionId hs
    simp only [cleanupExpiredSessions]
    rw [getK_filter_expiry st.otpStore sessionId now hwf, hs]

/-- Witness for the amended C2 on a concrete two-session store: the
expired (verified) session is removed, the unexpired pending one kept,
and the count is 1. -/
theorem cleanup_spec_witness :
    let sOld : Session :=
      { otp := "111111", expiresAt := 100, identifier := "a@x.com",
        channels := ["sms"], createdAt := 0, verified := true, verifiedAt := some 50 }
    let sNew : Session :=
      { otp := "222222", expiresAt := 900, identifier := "b@x.com",
        channels := ["email"], createdAt := 0, verified := false, verifiedAt := none }
    let st : OTPState :=
      { otpStore := [("old", sOld), ("new", sNew)],
        attemptStore := [("old", 1), ("new", 0)] }
    keysNodup st.otpStore ∧
      ((cleanupExpiredSessions st 200).1 + (cleanupExpiredSessions st 200).2.otpStore.length
          = st.otpStore.length) ∧
      getK (cleanupExpiredSessions st 200).2.otpStore "old" = none ∧
      getK (cleanupExpiredSessions st 200).2.otpStore "new" = some sNew := by
  intro sOld sNew st
  have hwf : keysNodup st.otpStore := by decide
  have h := cleanup_spec st 200 hwf
  refine ⟨hwf, h.1, ?_, ?_⟩
  · have := h.2.1 "old" sOld (by decide)
    rw [this]
    norm_num
  · have := h.2.1 "new" sNew (by decide)
    rw [this]
    norm_num

/-! ## C10: verified takes precedence over expiry -/

/-- **C10.**  A session that is both verified and past `expiresAt` is
classified as verified, not expired: `getSessionStatus` reports status
`verified`, and adding such a session to a store raises
`getStats`'s `verifiedSessions` by one while leaving `expiredSessions`
untouched — the `verified` flag is tested before expiry in both
classifications, for every store, session and current time. -/
theorem verified_takes_precedence (cfg : Config) (st : OTPState) (now : Time)
    (sessionId : String) (s : Session)
    (hv : s.verified = true) (he : s.expiresAt < now) :
    ((getSessionStatus cfg
        { otpStore := (sessionId, s) :: st.otpStore, attemptStore := st.attemptStore }
        now sessionId).map StatusRecord.status = some SessionTag.verified) ∧
    ((getStats { otpStore := (sessionId, s) :: st.otpStore, attemptStore := st.attemptStore }
        now).verifiedSessions = (getStats st now).verifiedSessions + 1) ∧
    ((getStats { otpStore := (sessionId, s) :: st.otpStore, attemptStore := st.attemptStore }
        now).expiredSessions = (getStats st now).expiredSessions) := by
  refine ⟨?_, ?_, ?_⟩
  · simp [getSessionStatus, getK, hv]
  · simp [getStats, List.countP_cons, hv]
  · simp [getStats, List.countP_cons, hv]

/-- Witness for C10: a concrete verified session whose expiry lies in the
past is reported `verified` and counted among `verifiedSessions`. -/
theorem verified_takes_precedence_witness :
    let s : Session :=
      { otp := "654321", expiresAt := 100, identifier := "c@x.com",
        channels := ["push"], createdAt := 0, verified := true, verifiedAt := some 90 }
    s.verified = true ∧ s.expiresAt < 500 ∧
    ((getSessionStatus { otpLength := 6, expiryMinutes := 5, maxAttempts := 3 }
        { otpStore := [("sid9", s)], attemptStore := [] }
        500 "sid9").map StatusRecord.status = some SessionTag.verified) ∧
    ((getStats { otpStore := [("sid9", s)], attemptStore := [] } 500).verifiedSessions
        = (getStats { otpStore := [], attemptStore := [] } 500).verifiedSessions + 1) ∧
    ((getStats { otpStore := [("sid9", s)], attemptStore := [] } 500).expiredSessions
        = (getStats { otpStore := [], attemptStore := [] } 500).expiredSessions) := by
  intro s
  have h := verified_takes_precedence
    { otpLength := 6, expiryMinutes := 5, maxAttempts := 3 }
    { otpStore := [], attemptStore := [] } 500 "sid9" s rfl (by decide)
  exact ⟨rfl, by decide, h.1, h.2.1, h.2.2⟩

/-! ## C4: single-use success, replay rejected -/

/-- **C4.**  A pending, unexpired session with attempts below the limit is
verified by one call with the correct code: the result is success with
`attemptsUsed`, and the stored session gets `verified = true` and
`verifiedAt = now` with everything else unchanged; every subsequent
`verify` on the same id — any candidate code, any later time — returns
`AlreadyUsed` and returns the state unchanged, so `verified` and
`verifiedAt` are set exactly once, on the first successful match. -/
theorem verify_success_then_replay (cfg : Config) (st : OTPState) (now : Time)
    (sessionId : String) (s : Session)
    (hs : getK st.otpStore sessionId = some s)
    (hv : s.verified = false)
    (he : ¬ s.expiresAt < now)
    (ha : attemptsOf st sessionId < cfg.maxAttempts) :
    ((verify cfg st now sessionId s.otp).1 =
        VerifyResult.success now (attemptsOf st sessionId + 1) s.identifier) ∧
    (getK (verify cfg st now sessionId s.otp).2.otpStore sessionId =
        some { s with verified := true, verifiedAt := some now }) ∧
    (∀ later candidate,
        verify cfg (verify cfg st now sessionId s.otp).2 later sessionId candidate =
          (VerifyResult.alreadyUsed, (verify cfg st now sessionId s.otp).2)) := by
  have hm : ¬ cfg.maxAttempts ≤ attemptsOf st sessionId := not_le.mpr ha
  have h1 : verify cfg st now sessionId s.otp =
      (VerifyResult.success now (attemptsOf st sessionId + 1) s.identifier,
        { otpStore :=
            setK st.otpStore sessionId { s with verified := true, verifiedAt := some now }
          attemptStore := setK st.attemptStore sessionId (attemptsOf st sessionId + 1) }) := by
    simp only [verify, hs, attemptsOf] at *
    simp [hv, hm, he]
  refine ⟨by rw [h1], ?_, ?_⟩
  · rw [h1]
    exact getK_setK_self _ _ _
  · intro later candidate
    rw [h1]
    simp [verify, getK_setK_self]

/-- Witness for C4 on a concrete pending session: the first call with the
correct code succeeds and a replay with the same code is rejected with
`AlreadyUsed`. -/
theorem verify_success_then_replay_witness :
    let s : Session :=
      { otp := "424242", expiresAt := 1000, identifier := "d@x.com",
        channels := ["sms"], createdAt := 0, verified := false, verifiedAt := none }
    let cfg : Config := { otpLength := 6, expiryMinutes := 5, maxAttempts := 3 }
    let st : OTPState := { otpStore := [("sid4", s)], attemptStore := [("sid4", 1)] }
    (getK st.otpStore "sid4" = some s ∧ s.verified = false ∧
        ¬ s.expiresAt < 700 ∧ attemptsOf st "sid4" < cfg.maxAttempts) ∧
    ((verify cfg st 700 "sid4" s.otp).1 =
        VerifyResult.success 700 (attemptsOf st "sid4" + 1) s.identifier) ∧
    (verify cfg (verify cfg st 700 "sid4" s.otp).2 900 "sid4" "424242" =
        (VerifyResult.alreadyUsed, (verify cfg st 700 "sid4" s.otp).2)) := by
  intro s cfg st
  have h := verify_success_then_replay cfg st 700 "sid4" s (by decide) rfl
    (by decide) (by decide)
  exact ⟨⟨by decide, rfl, by decide, by decide⟩, h.1, h.2.2 900 "424242"⟩

/-! ## C7: per-channel delivery isolation -/

/-- **C7.**  `generateAndSend` produces exactly one per-channel result per
requested channel, in request order: the i-th entry is the guarded
outcome of the i-th delivery attempt (a thrown delivery error becomes a
failed entry naming that channel and does not abort the remaining
channels or the call); `overallSuccess` is true iff at least one entry
succeeded; `totalCost` is the sum of the entries' cost fields, a failed
entry contributing 0. -/
theorem generateAndSend_per_channel (cfg : Config) (st : OTPState) (now : Time)
    (sessionId otp identifier : String) (channels : List String)
    (sendOutcome : Nat → Except String SendOk) :
    ((generateAndSend cfg st now sessionId otp identifier channels
        sendOutcome).result.channels.length = channels.length) ∧
    (∀ i, (generateAndSend cfg st now sessionId otp identifier channels
        sendOutcome).result.channels[i]? =
          (channels[i]?).map fun c => attemptChannel (sendOutcome i) c) ∧
    ((generateAndSend cfg st now sessionId otp identifier channels
        sendOutcome).result.success = true ↔
      ∃ r ∈ (generateAndSend cfg st now sessionId otp identifier channels
        sendOutcome).result.channels, r.success = true) ∧
    ((generateAndSend cfg st now sessionId otp identifier channels
        sendOutcome).result.totalCost =
      ((generateAndSend cfg st now sessionId otp identifier channels
        sendOutcome).result.channels.map (fun r => r.cost.getD 0)).sum) := by
  refine ⟨?_, ?_, ?_, rfl⟩
  · simp [generateAndSend, sendLoop, List.enum_length]
  · intro i
    simp only [generateAndSend, sendLoop, List.getElem?_map, List.getElem?_enum]
    cases channels[i]? <;> rfl
  · simp [generateAndSend, List.any_eq_true]

/-! ## C8: the numeric code generator

Bridging `Nat.repr` (what `.toString()` produces) with `Nat.digits`. -/

theorem toDigitsCore_eq_digits (f : Nat) :
    ∀ (n : Nat) (l : List Char), n < f → n ≠ 0 →
      Nat.toDigitsCore 10 f n l = ((Nat.digits 10 n).map Nat.digitChar).reverse ++ l := by
  induction f with
  | zero => intro n l hf _; omega
  | succ f ih =>
      intro n l hf hn
      have hd : Nat.digits 10 n = n % 10 :: Nat.digits 10 (n / 10) :=
        Nat.digits_def' (by norm_num) (Nat.pos_of_ne_zero hn)
      by_cases h10 : n / 10 = 0
      · rw [show Nat.toDigitsCore 10 (f + 1) n l = Nat.digitChar (n % 10) :: l from by
          simp [Nat.toDigitsCore, h10]]
        rw [hd, h10]
        simp
      · rw [show Nat.toDigitsCore 10 (f + 1) n l
              = Nat.toDigitsCore 10 f (n / 10) (Nat.digitChar (n % 10) :: l) from by
          simp [Nat.toDigitsCore, h10]]
        have hlt : n / 10 < n := Nat.div_lt_self (Nat.pos_of_ne_zero hn) (by norm_num)
        rw [ih (n / 10) (Nat.digitChar (n % 10) :: l) (by omega) h10]
        rw [hd]
        simp

theorem repr_eq_digits_string (n : Nat) (hn : n ≠ 0) :
    Nat.repr n = (((Nat.digits 10 n).map Nat.digitChar).reverse).asString := by
  show (Nat.toDigitsCore 10 (n + 1) n []).asString = _
  rw [toDigitsCore_eq_digits (n + 1) n [] (Nat.lt_succ_self n) hn, List.append_nil]

theorem repr_length_eq_digits_len (n : Nat) (hn : n ≠ 0) :
    (Nat.repr n).length = (Nat.digits 10 n).length := by
  rw [repr_eq_digits_string n hn]
  show (((Nat.digits 10 n).map Nat.digitChar).reverse).length = _
  simp

theorem asString_inj (l1 l2 : List Char) (h : l1.asString = l2.asString) :
    l1 = l2 := by
  simpa [List.asString] using congrArg String.data h

theorem digitChar_inj_below_ten :
    ∀ a < 10, ∀ b < 10, Nat.digitChar a = Nat.digitChar b → a = b := by decide

theorem map_digitChar_inj : ∀ (l1 l2 : List Nat), (∀ x ∈ l1, x < 10) →
    (∀ x ∈ l2, x < 10) → l1.map Nat.digitChar = l2.map Nat.digitChar → l1 = l2 := by
  intro l1
  induction l1 with
  | nil =>
      intro l2 _ _ h
      cases l2 with
      | nil => rfl
      | cons b t2 => simp at h
  | cons a t ih =>
      intro l2 h1 h2 h
      cases l2 with
      | nil => simp at h
      | cons b t2 =>
          simp only [List.map_cons, List.cons.injEq] at h
          have ha : a = b :=
            digitChar_inj_below_ten a (h1 a (List.mem_cons_self a t))
              b (h2 b (List.mem_cons_self b t2)) h.1
          have ht : t = t2 :=
            ih t2 (fun x hx => h1 x (List.mem_cons_of_mem a hx))
              (fun x hx => h2 x (List.mem_cons_of_mem b hx)) h.2
          rw [ha, ht]

theorem repr_inj_of_ne_zero (m n : Nat) (hm : m ≠ 0) (hn : n ≠ 0)
    (h : Nat.repr m = Nat.repr n) : m = n := by
  rw [repr_eq_digits_string m hm, repr_eq_digits_string n hn] at h
  have h1 := asString_inj _ _ h
  have h2 := List.reverse_injective h1
  have h3 := map_digitChar_inj _ _
    (fun x hx => Nat.digits_lt_base (by norm_num) hx)
    (fun x hx => Nat.digits_lt_base (by norm_num) hx) h2
  exact Nat.digits.injective 10 h3

/-- **C8.**  For a positive `otpLength` n, the numeric generator draws
`r` uniformly from the full range `[10^(n-1), 10^n - 1]` (the call
`crypto.randomInt(min, max + 1)`, which Node documents as uniform and
bias-free, modelled as the external draw) and returns exactly its
decimal representation: the code string is `Nat.repr r`, has exactly n
characters, its digit expansion has exactly n digits with a nonzero
leading digit, and the map from draws to codes is injective on the full
range — so uniform draws give uniformly distributed codes with no
modulo bias. -/
theorem otpGenerator_numeric (len r : Nat) (hlen : 1 ≤ len)
    (hlo : otpMin len ≤ r) (hhi : r ≤ otpMax len) :
    (OTPGenerator.generate len r = Nat.repr r) ∧
    ((OTPGenerator.generate len r).length = len) ∧
    ((Nat.digits 10 r).length = len) ∧
    ((Nat.digits 10 r).getLast? ≠ some 0) ∧
    (∀ r', otpMin len ≤ r' → r' ≤ otpMax len →
        OTPGenerator.generate len r = OTPGenerator.generate len r' → r = r') := by
  have hminpos : (0:Nat) < 10 ^ (len - 1) := Nat.pos_pow_of_pos _ (by norm_num)
  have hr0 : r ≠ 0 := by
    unfold otpMin at hlo
    omega
  have hmaxpos : (0:Nat) < 10 ^ len := Nat.pos_pow_of_pos _ (by norm_num)
  have hlog : Nat.log 10 r = len - 1 := by
    apply Nat.log_eq_of_pow_le_of_lt_pow
    · exact hlo
    · have hsucc : len - 1 + 1 = len := by omega
      rw [hsucc]
      unfold otpMax at hhi
      omega
  have hdiglen : (Nat.digits 10 r).length = len := by
    rw [Nat.digits_len 10 r (by norm_num) hr0, hlog]
    omega
  refine ⟨rfl, ?_, hdiglen, ?_, ?_⟩
  · show (Nat.repr r).length = len
    rw [repr_length_eq_digits_len r hr0, hdiglen]
  · have hne : Nat.digits 10 r ≠ [] := Nat.digits_ne_nil_iff_ne_zero.mpr hr0
    rw [List.getLast?_eq_getLast _ hne]
    intro hcontra
    exact Nat.getLast_digit_ne_zero 10 hr0 (Option.some.inj hcontra)
  · intro r' hlo' hhi' h
    have hr0' : r' ≠ 0 := by
      unfold otpMin at hlo'
      omega
    exact repr_inj_of_ne_zero r r' hr0 hr0' h

/-- Witness for C8 at `otpLength = 2`, draw `r = 42`. -/
theorem otpGenerator_numeric_witness :
    (1 ≤ 2 ∧ otpMin 2 ≤ 42 ∧ 42 ≤ otpMax 2) ∧
    ((OTPGenerator.generate 2 42 = Nat.repr 42) ∧
      ((OTPGenerator.generate 2 42).length = 2) ∧
      ((Nat.digits 10 42).length = 2) ∧
      ((Nat.digits 10 42).getLast? ≠ some 0) ∧
      (∀ r', otpMin 2 ≤ r' → r' ≤ otpMax 2 →
          OTPGenerator.generate 2 42 = OTPGenerator.generate 2 r' → 42 = r')) :=
  ⟨⟨by norm_num, by decide, by decide⟩,
    otpGenerator_numeric 2 42 (by norm_num) (by decide) (by decide)⟩

/-! ## Reachability machinery for the attempt-counter invariant (C3)
and the code-immutability round trip (C5) -/

theorem hasK_iff (m : List (String × α)) (k : String) :
    hasK m k = true ↔ ∃ v, getK m k = some v := by
  induction m with
  | nil => simp [hasK, getK]
  | cons p rest ih =>
      by_cases hp : p.1 = k <;> simp [hasK, getK, hp, ih]

/-- `resend` never writes the stores, in any branch. -/
theorem resend_state_eq (cfg : Config) (st : OTPState) (now : Time)
    (sessionId : String) (channels : Option (List String))
    (sendOutcome : Nat → Except String SendOk) :
    (resend cfg st now sessionId channels sendOutcome).state = st := by
  unfold resend getSessionStatus
  cases hg : getK st.otpStore sessionId with
  | none => rfl
  | some sess =>
      by_cases hv : sess.verified <;> by_cases he : sess.expiresAt < now <;>
        simp [hv, he, hg]

/-- The attempt store after `verify`: unchanged, or the session's counter
deleted, or — only under the max-attempts guard — bumped by one. -/
theorem verify_attemptStore (cfg : Config) (st : OTPState) (now : Time)
    (sessionId inputOtp : String) :
    (verify cfg st now sessionId inputOtp).2.attemptStore = st.attemptStore ∨
    (verify cfg st now sessionId inputOtp).2.attemptStore = delK st.attemptStore sessionId ∨
    ((verify cfg st now sessionId inputOtp).2.attemptStore
        = setK st.attemptStore sessionId (attemptsOf st sessionId + 1) ∧
      attemptsOf st sessionId < cfg.maxAttempts) := by
  unfold verify attemptsOf
  cases getK st.otpStore sessionId with
  | none => left; rfl
  | some sess =>
      by_cases hv : sess.verified
      · left; simp [hv]
      · by_cases hm : cfg.maxAttempts ≤ (getK st.attemptStore sessionId).getD 0
        · right; left; simp [hv, hm]
        · by_cases he : sess.expiresAt < now
          · right; left; simp [hv, hm, he]
          · by_cases hc : inputOtp = sess.otp
            · right; right; exact ⟨by simp [hv, hm, he, hc], by omega⟩
            · right; right; exact ⟨by simp [hv, hm, he, hc], by omega⟩

/-- The session store after `verify`: unchanged, or the session deleted,
or the session overwritten by its own verified copy. -/
theorem verify_otpStore (cfg : Config) (st : OTPState) (now : Time)
    (sessionId inputOtp : String) :
    (verify cfg st now sessionId inputOtp).2.otpStore = st.otpStore ∨
    (verify cfg st now sessionId inputOtp).2.otpStore = delK st.otpStore sessionId ∨
    (∃ sess, getK st.otpStore sessionId = some sess ∧
        (verify cfg st now sessionId inputOtp).2.otpStore
          = setK st.otpStore sessionId { sess with verified := true, verifiedAt := some now }) := by
  unfold verify
  cases hg : getK st.otpStore sessionId with
  | none => left; rfl
  | some sess =>
      by_cases hv : sess.verified
      · left; simp [hv]
      · by_cases hm : cfg.maxAttempts ≤ (getK st.attemptStore sessionId).getD 0
        · right; left; simp [hv, hm]
        · by_cases he : sess.expiresAt < now
          · right; left; simp [hv, hm, he]
          · by_cases hc : inputOtp = sess.otp
            · right; right; exact ⟨sess, rfl, by simp [hv, hm, he, hc]⟩
            · left; simp [hv, hm, he, hc]

/-- Looking up an attempt counter after the cleanup sweep. -/
theorem getK_cleanup_attempt (st : OTPState) (now : Time) (k : String) :
    getK (cleanupExpiredSessions st now).2.attemptStore k =
      (match getK st.otpStore k with
        | some s => if s.expiresAt < now then none else getK st.attemptStore k
        | none => getK st.attemptStore k) := by
  simp only [cleanupExpiredSessions]
  have h := getK_filter_key st.attemptStore k
      (fun key => match getK st.otpStore key with
        | some s => !decide (s.expiresAt < now)
        | none => true)
  simp only at h
  rw [h]
  cases getK st.otpStore k with
  | none => simp
  | some s => by_cases hs : s.expiresAt < now <;> simp [hs]

/-- Both stores keep duplicate-free keys (a JS `Map` invariant). -/
def StoreWF (st : OTPState) : Prop :=
  keysNodup st.otpStore ∧ keysNodup st.attemptStore

instance (st : OTPState) : Decidable (StoreWF st) := by
  unfold StoreWF; infer_instance

theorem storeWF_applyOp (cfg : Config) (st : OTPState) (op : Op)
    (h : StoreWF st) : StoreWF (applyOp cfg st op) := by
  obtain ⟨h1, h2⟩ := h
  cases op with
  | generateAndSendOp now sid otp idf chans so =>
      exact ⟨keysNodup_setK _ _ _ h1, keysNodup_setK _ _ _ h2⟩
  | verifyOp now sid code =>
      constructor
      · rcases verify_otpStore cfg st now sid code with he | he | ⟨sess, _, he⟩ <;>
          · simp only [applyOp]
            rw [he]
            first
              | exact h1
              | exact keysNodup_delK _ _ h1
              | exact keysNodup_setK _ _ _ h1
      · rcases verify_attemptStore cfg st now sid code with he | he | ⟨he, _⟩ <;>
          · simp only [applyOp]
            rw [he]
            first
              | exact h2
              | exact keysNodup_delK _ _ h2
              | exact keysNodup_setK _ _ _ h2
  | resendOp now sid chans so =>
      simp only [applyOp]
      rw [resend_state_eq]
      exact ⟨h1, h2⟩
  | cleanupOp now =>
      exact ⟨keysNodup_filter _ _ h1, keysNodup_filter _ _ h2⟩
  | getSessionStatusOp now sid => exact ⟨h1, h2⟩
  | getStatsOp now => exact ⟨h1, h2⟩

/-- Every stored attempt counter stays at or below `maxAttempts` across
any single operation. -/
theorem attemptsBounded_applyOp (cfg : Config) (st : OTPState) (op : Op)
    (h : ∀ p ∈ st.attemptStore, p.2 ≤ cfg.maxAttempts) :
    ∀ p ∈ (applyOp cfg st op).attemptStore, p.2 ≤ cfg.maxAttempts := by
  cases op with
  | generateAndSendOp now sid otp idf chans so =>
      intro p hp
      simp only [applyOp, generateAndSend] at hp
      rcases mem_setK _ _ _ _ hp with hmem | rfl
      · exact h p hmem
      · exact Nat.zero_le _
  | verifyOp now sid code =>
      intro p hp
      simp only [applyOp] at hp
      rcases verify_attemptStore cfg st now sid code with he | he | ⟨he, hlt⟩
      · rw [he] at hp; exact h p hp
      · rw [he] at hp
        exact h p ((delK_sublist _ _).subset hp)
      · rw [he] at hp
        rcases mem_setK _ _ _ _ hp with hmem | rfl
        · exact h p hmem
        · exact hlt
  | resendOp now sid chans so =>
      intro p hp
      simp only [applyOp] at hp
      rw [resend_state_eq] at hp
      exact h p hp
  | cleanupOp now =>
      intro p hp
      simp only [applyOp, cleanupExpiredSessions] at hp
      exact h p ((List.filter_sublist _).subset hp)
  | getSessionStatusOp now sid => exact h
  | getStatsOp now => exact h

/-- Reachable states are well-formed and respect the attempt bound. -/
theorem reachable_wf_bounded (cfg : Config) (st : OTPState)
    (h : Reachable cfg st) :
    StoreWF st ∧ ∀ p ∈ st.attemptStore, p.2 ≤ cfg.maxAttempts := by
  induction h with
  | init => exact ⟨⟨List.nodup_nil, List.nodup_nil⟩, by simp⟩
  | step st' op hr ih =>
      exact ⟨storeWF_applyOp cfg st' op ih.1, attemptsBounded_applyOp cfg st' op ih.2⟩

theorem attemptsOf_le_of_bounded (cfg : Config) (st : OTPState)
    (h : ∀ p ∈ st.attemptStore, p.2 ≤ cfg.maxAttempts) (sessionId : String) :
    attemptsOf st sessionId ≤ cfg.maxAttempts := by
  unfold attemptsOf
  cases hg : getK st.attemptStore sessionId with
  | none => simp
  | some v =>
      simpa using h (sessionId, v) (getK_mem _ _ _ hg)

/-- Did a `verify` result get past every guard, to the code comparison? -/
def VerifyResult.reachedComparison : VerifyResult → Bool
  | .success _ _ _ => true
  | .invalidCode _ => true
  | _ => false

/-- The call is a `verify` of this session that reached the comparison
step (it was not short-circuited by the four guards). -/
def opReachesComparison (cfg : Config) (st : OTPState) (op : Op)
    (sessionId : String) : Prop :=
  ∃ now candidate, op = Op.verifyOp now sessionId candidate ∧
    (verify cfg st now sessionId candidate).1.reachedComparison = true

/-- One step changes a still-present session's attempt counter by exactly
one when the step is a comparison-reaching `verify` of that session, and
not at all otherwise. -/
theorem attempts_step_characterization (cfg : Config) (st : OTPState) (op : Op)
    (sessionId : String) (hwf : keysNodup st.otpStore)
    (hb : hasK st.otpStore sessionId = true)
    (ha : hasK (applyOp cfg st op).otpStore sessionId = true)
    (hnc : opCreates op sessionId = false) :
    (attemptsOf (applyOp cfg st op) sessionId = attemptsOf st sessionId + 1 ∧
        opReachesComparison cfg st op sessionId) ∨
    (attemptsOf (applyOp cfg st op) sessionId = attemptsOf st sessionId ∧
        ¬ opReachesComparison cfg st op sessionId) := by
  cases op with
  | getSessionStatusOp now sid =>
      right
      refine ⟨rfl, ?_⟩
      rintro ⟨n, c, heq, -⟩
      exact Op.noConfusion heq
  | getStatsOp now =>
      right
      refine ⟨rfl, ?_⟩
      rintro ⟨n, c, heq, -⟩
      exact Op.noConfusion heq
  | resendOp now sid chans so =>
      right
      constructor
      · simp only [applyOp, attemptsOf]
        rw [resend_state_eq]
      · rintro ⟨n, c, heq, -⟩
        exact Op.noConfusion heq
  | generateAndSendOp now sid otp idf chans so =>
      have hne : ¬ sid = sessionId := by
        simpa [opCreates] using hnc
      right
      constructor
      · simp only [applyOp, generateAndSend, attemptsOf]
        rw [getK_setK_ne _ _ _ _ (fun hk => hne hk.symm)]
      · rintro ⟨n, c, heq, -⟩
        exact Op.noConfusion heq
  | cleanupOp now =>
      right
      constructor
      · rw [hasK_iff] at ha
        obtain ⟨s', hs'⟩ := ha
        simp only [applyOp, cleanupExpiredSessions] at hs'
        rw [getK_filter_expiry st.otpStore sessionId now hwf] at hs'
        cases hg : getK st.otpStore sessionId with
        | none => rw [hg] at hs'; exact absurd hs' (by simp)
        | some s =>
            rw [hg] at hs'
            by_cases hex : s.expiresAt < now
            · simp [hex] at hs'
            · simp only [applyOp, attemptsOf]
              rw [getK_cleanup_attempt, hg]
              simp [hex]
      · rintro ⟨n, c, heq, -⟩
        exact Op.noConfusion heq
  | verifyOp now sid candidate =>
      by_cases hsid : sid = sessionId
      · subst hsid
        rw [hasK_iff] at hb
        obtain ⟨sess, hg⟩ := hb
        by_cases hv : sess.verified
        · have hres : verify cfg st now sid candidate = (.alreadyUsed, st) := by
            simp [verify, hg, hv]
          right
          constructor
          · simp only [applyOp, attemptsOf, hres]
          · rintro ⟨n, c, heq, hr⟩
            obtain ⟨rfl, -, rfl⟩ := (Op.verifyOp.injEq _ _ _ _ _ _).mp heq
            rw [hres] at hr
            simp [VerifyResult.reachedComparison] at hr
        · by_cases hmax : cfg.maxAttempts ≤ (getK st.attemptStore sid).getD 0
          · have hres : (verify cfg st now sid candidate).2.otpStore
                = delK st.otpStore sid := by
              simp [verify, hg, hv, hmax]
            rw [hasK_iff] at ha
            obtain ⟨s', hs'⟩ := ha
            simp only [applyOp] at hs'
            rw [hres, getK_delK_self] at hs'
            exact absurd hs' (by simp)
          · by_cases hex : sess.expiresAt < now
            · have hres : (verify cfg st now sid candidate).2.otpStore
                  = delK st.otpStore sid := by
                simp [verify, hg, hv, hmax, hex]
              rw [hasK_iff] at ha
              obtain ⟨s', hs'⟩ := ha
              simp only [applyOp] at hs'
              rw [hres, getK_delK_self] at hs'
              exact absurd hs' (by simp)
            · left
              have hstore : (verify cfg st now sid candidate).2.attemptStore
                  = setK st.attemptStore sid ((getK st.attemptStore sid).getD 0 + 1) := by
                by_cases hc : candidate = sess.otp <;>
                  simp [verify, hg, hv, hmax, hex, hc]
              constructor
              · simp only [applyOp, attemptsOf]
                rw [hstore, getK_setK_self]
                rfl
              · refine ⟨now, candidate, rfl, ?_⟩
                by_cases hc : candidate = sess.otp
                · have : (verify cfg st now sid candidate).1
                      = .success now ((getK st.attemptStore sid).getD 0 + 1)
                          sess.identifier := by
                    simp [verify, hg, hv, hmax, hex, hc]
                  rw [this]
                  rfl
                · have : (verify cfg st now sid candidate).1
                      = .invalidCode ((cfg.maxAttempts : Int)
                          - ((getK st.attemptStore sid).getD 0 + 1 : Nat)) := by
                    simp [verify, hg, hv, hmax, hex, hc]
                  rw [this]
                  rfl
      · right
        have hne : sessionId ≠ sid := fun h => hsid h.symm
        constructor
        · simp only [applyOp, attemptsOf]
          rcases verify_attemptStore cfg st now sid candidate with he | he | ⟨he, -⟩
          · rw [he]
          · rw [he, getK_delK_ne _ _ _ hne]
          · rw [he, getK_setK_ne _ _ _ _ hne]
        · rintro ⟨n, c, heq, -⟩
          obtain ⟨-, h2, -⟩ := (Op.verifyOp.injEq _ _ _ _ _ _).mp heq
          exact hsid h2

/-! ## C3: the attempt counter invariant -/

/-- **C3.**  In every reachable state, every session's attempt counter is
at most `maxAttempts`; and across any single operation a still-present
session's counter either stays unchanged (every non-`verify` operation
and every short-circuited `verify`) or grows by exactly one (exactly the
`verify` calls on that session that reach the code-comparison step), so
it only ever increases while the session exists. -/
theorem attempts_invariant (cfg : Config) (st : OTPState)
    (h : Reachable cfg st) :
    (∀ sessionId, attemptsOf st sessionId ≤ cfg.maxAttempts) ∧
    (∀ op sessionId, hasK st.otpStore sessionId = true →
        hasK (applyOp cfg st op).otpStore sessionId = true →
        opCreates op sessionId = false →
        ((attemptsOf (applyOp cfg st op) sessionId = attemptsOf st sessionId + 1 ∧
            opReachesComparison cfg st op sessionId) ∨
         (attemptsOf (applyOp cfg st op) sessionId = attemptsOf st sessionId ∧
            ¬ opReachesComparison cfg st op sessionId))) := by
  obtain ⟨hwf, hbound⟩ := reachable_wf_bounded cfg st h
  constructor
  · exact attemptsOf_le_of_bounded cfg st hbound
  · intro op sessionId hb ha hnc
    exact attempts_step_characterization cfg st op sessionId hwf.1 hb ha hnc

/-- Witness for C3: the state reached by creating a session and burning
one wrong attempt; a second wrong `verify` is a comparison-reaching step
and the counter sits below the limit. -/
theorem attempts_invariant_witness :
    let cfg : Config := { otpLength := 6, expiryMinutes := 5, maxAttempts := 3 }
    let so : Nat → Except String SendOk :=
      fun _ => Except.ok { success := true, channel := "SMS", cost := 1 }
    let stW : OTPState :=
      runOps cfg { otpStore := [], attemptStore := [] }
        [Op.generateAndSendOp 0 "s1" "123456" "u@x" ["sms"] so,
         Op.verifyOp 10 "s1" "000000"]
    let opW : Op := Op.verifyOp 20 "s1" "111111"
    Reachable cfg stW ∧
    (hasK stW.otpStore "s1" = true ∧ hasK (applyOp cfg stW opW).otpStore "s1" = true ∧
      opCreates opW "s1" = false) ∧
    attemptsOf stW "s1" ≤ cfg.maxAttempts ∧
    ((attemptsOf (applyOp cfg stW opW) "s1" = attemptsOf stW "s1" + 1 ∧
        opReachesComparison cfg stW opW "s1") ∨
     (attemptsOf (applyOp cfg stW opW) "s1" = attemptsOf stW "s1" ∧
        ¬ opReachesComparison cfg stW opW "s1")) := by
  intro cfg so stW opW
  have hreach : Reachable cfg stW :=
    Reachable.step _ (Op.verifyOp 10 "s1" "000000")
      (Reachable.step _ (Op.generateAndSendOp 0 "s1" "123456" "u@x" ["sms"] so)
        Reachable.init)
  have h := attempts_invariant cfg stW hreach
  exact ⟨hreach, ⟨by decide, by decide, by decide⟩, h.1 "s1",
    h.2 opW "s1" (by decide) (by decide) (by decide)⟩

/-! ## C5: the code is never regenerated -/

/-- Any single operation that does not create a session under this id
leaves the stored session's `otp` (and `identifier`) unchanged while it
exists. -/
theorem session_otp_preserved (cfg : Config) (st : OTPState) (op : Op)
    (sessionId : String) (hwf : keysNodup st.otpStore)
    (hnc : opCreates op sessionId = false) (s' : Session)
    (h' : getK (applyOp cfg st op).otpStore sessionId = some s') :
    ∃ s, getK st.otpStore sessionId = some s ∧
      s'.otp = s.otp ∧ s'.identifier = s.identifier := by
  cases op with
  | getSessionStatusOp now sid => exact ⟨s', h', rfl, rfl⟩
  | getStatsOp now => exact ⟨s', h', rfl, rfl⟩
  | resendOp now sid chans so =>
      simp only [applyOp] at h'
      rw [resend_state_eq] at h'
      exact ⟨s', h', rfl, rfl⟩
  | generateAndSendOp now sid otp idf chans so =>
      have hne : ¬ sid = sessionId := by
        simpa [opCreates] using hnc
      simp only [applyOp, generateAndSend] at h'
      rw [getK_setK_ne _ _ _ _ (fun hk => hne hk.symm)] at h'
      exact ⟨s', h', rfl, rfl⟩
  | cleanupOp now =>
      simp only [applyOp, cleanupExpiredSessions] at h'
      rw [getK_filter_expiry st.otpStore sessionId now hwf] at h'
      cases hg : getK st.otpStore sessionId with
      | none => rw [hg] at h'; exact absurd h' (by simp)
      | some s =>
          rw [hg] at h'
          by_cases hex : s.expiresAt < now
          · simp [hex] at h'
          · simp only [hex, if_false, Option.some.injEq] at h'
            obtain rfl := h'
            exact ⟨s, rfl, rfl, rfl⟩
  | verifyOp now sid candidate =>
      simp only [applyOp] at h'
      rcases verify_otpStore cfg st now sid candidate with he | he | ⟨sess, hg, he⟩
      · rw [he] at h'
        exact ⟨s', h', rfl, rfl⟩
      · rw [he] at h'
        by_cases hsid : sid = sessionId
        · subst hsid
          rw [getK_delK_self] at h'
          exact absurd h' (by simp)
        · rw [getK_delK_ne _ _ _ (fun hk => hsid hk.symm)] at h'
          exact ⟨s', h', rfl, rfl⟩
      · rw [he] at h'
        by_cases hsid : sid = sessionId
        · subst hsid
          rw [getK_setK_self] at h'
          obtain rfl : { sess with verified := true, verifiedAt := some now } = s' :=
            Option.some.inj h'
          exact ⟨sess, hg, rfl, rfl⟩
        · rw [getK_setK_ne _ _ _ _ (fun hk => hsid hk.symm)] at h'
          exact ⟨s', h', rfl, rfl⟩

/-- Iterated form of `session_otp_preserved` over a call sequence. -/
theorem session_otp_preserved_runOps (cfg : Config) (sessionId : String)
    (ops : List Op) :
    ∀ (st : OTPState), StoreWF st →
      (∀ op ∈ ops, opCreates op sessionId = false) →
      ∀ s', getK (runOps cfg st ops).otpStore sessionId = some s' →
        ∃ s, getK st.otpStore sessionId = some s ∧
          s'.otp = s.otp ∧ s'.identifier = s.identifier := by
  induction ops with
  | nil => exact fun st _ _ s' h' => ⟨s', h', rfl, rfl⟩
  | cons op rest ih =>
      intro st hwf hops s' h'
      simp only [runOps, List.foldl_cons] at h'
      obtain ⟨smid, hmid, ho1, hi1⟩ :=
        ih (applyOp cfg st op) (storeWF_applyOp cfg st op hwf)
          (fun o ho => hops o (List.mem_cons_of_mem op ho)) s' h'
      obtain ⟨s, hs, ho2, hi2⟩ :=
        session_otp_preserved cfg st op sessionId hwf.1
          (hops op (List.mem_cons_self op rest)) smid hmid
      exact ⟨s, hs, ho1.trans ho2, hi1.trans hi2⟩

/-- Every capability call issued by `resend` carries the stored
session's code. -/
theorem resend_calls_code (cfg : Config) (st : OTPState) (now : Time)
    (sessionId : String) (channels : Option (List String))
    (sendOutcome : Nat → Except String SendOk) :
    ∀ call ∈ (resend cfg st now sessionId channels sendOutcome).calls,
      ∃ s, getK st.otpStore sessionId = some s ∧ call.code = s.otp := by
  intro call hc
  unfold resend getSessionStatus at hc
  cases hg : getK st.otpStore sessionId with
  | none => rw [hg] at hc; simp at hc
  | some sess =>
      rw [hg] at hc
      by_cases hv : sess.verified
      · simp [hv] at hc
      · by_cases he : sess.expiresAt < now
        · simp [hv, he] at hc
        · simp only [hv, he, Bool.false_eq_true, if_false, decide_False,
            List.mem_map] at hc
          obtain ⟨c, -, rfl⟩ := hc
          exact ⟨sess, rfl, rfl⟩

/-- **C5.**  A session's code is never regenerated: starting from any
well-formed store, create a session with `generateAndSend`, run any
sequence of interface calls that does not re-create this session id, and
then `resend` it; every delivery call the resend issues carries exactly
the code string returned by the originating `generateAndSend`. -/
theorem resend_delivers_original_code (cfg : Config) (st0 : OTPState) (now : Time)
    (sessionId otp identifier : String) (channels : List String)
    (sendOutcome : Nat → Except String SendOk) (ops : List Op) (later : Time)
    (channels' : Option (List String)) (sendOutcome' : Nat → Except String SendOk)
    (hwf : StoreWF st0)
    (hops : ∀ op ∈ ops, opCreates op sessionId = false) :
    ∀ call ∈ (resend cfg
        (runOps cfg (generateAndSend cfg st0 now sessionId otp identifier channels
            sendOutcome).state ops)
        later sessionId channels' sendOutcome').calls,
      call.code = (generateAndSend cfg st0 now sessionId otp identifier channels
          sendOutcome).result.otp := by
  intro call hc
  obtain ⟨s2, hs2, hcode⟩ := resend_calls_code cfg _ later sessionId channels'
    sendOutcome' call hc
  have hwf1 : StoreWF (generateAndSend cfg st0 now sessionId otp identifier channels
      sendOutcome).state :=
    ⟨keysNodup_setK _ _ _ hwf.1, keysNodup_setK _ _ _ hwf.2⟩
  obtain ⟨s1, hs1, hotp, -⟩ :=
    session_otp_preserved_runOps cfg sessionId ops _ hwf1 hops s2 hs2
  have hset : getK (generateAndSend cfg st0 now sessionId otp identifier channels
      sendOutcome).state.otpStore sessionId =
      some { otp := otp, expiresAt := now + cfg.expiryMinutes * 60 * 1000,
             identifier := identifier, channels := channels, createdAt := now,
             verified := false, verifiedAt := none } :=
    getK_setK_self _ _ _
  rw [hs1] at hset
  obtain rfl := Option.some.inj hset
  rw [hcode, hotp]
  rfl

/-- Witness for C5: create with code `"123456"`, burn a wrong verify,
then resend; the single delivery call carries `"123456"`. -/
theorem resend_delivers_original_code_witness :
    let cfg : Config := { otpLength := 6, expiryMinutes := 5, maxAttempts := 3 }
    let so : Nat → Except String SendOk :=
      fun _ => Except.ok { success := true, channel := "SMS", cost := 1 }
    let ops : List Op := [Op.verifyOp 10 "s1" "000000"]
    (StoreWF { otpStore := [], attemptStore := [] } ∧
      ∀ op ∈ ops, opCreates op "s1" = false) ∧
    (∀ call ∈ (resend cfg
        (runOps cfg (generateAndSend cfg { otpStore := [], attemptStore := [] } 0
            "s1" "123456" "u@x" ["sms"] so).state ops)
        20 "s1" none so).calls,
      call.code = (generateAndSend cfg { otpStore := [], attemptStore := [] } 0
          "s1" "123456" "u@x" ["sms"] so).result.otp) ∧
    (resend cfg
        (runOps cfg (generateAndSend cfg { otpStore := [], attemptStore := [] } 0
            "s1" "123456" "u@x" ["sms"] so).state ops)
        20 "s1" none so).calls =
      [{ channel := "sms", identifier := "u@x", code := "123456" }] := by
  intro cfg so ops
  refine ⟨⟨by decide, by decide⟩, ?_, by decide⟩
  exact resend_delivers_original_code cfg { otpStore := [], attemptStore := [] } 0
    "s1" "123456" "u@x" ["sms"] so ops 20 none so (by decide) (by decide)

end OTP
